import Mathlib

/-!
Shallow embedding of the semantic-retrieval subsystem of the web_whisper
repository, together with theorems settling the frozen claims C1 to C10.

Conventions of the embedding:
* JavaScript strings are modelled as `String` / `List Char`; the regular
  expressions of the source are compiled by hand into explicit scanners with
  the exact leftmost-match, greedy-with-backtracking semantics of the
  JavaScript engine (`String.replace` with a global regex, `RegExp.test`,
  `String.match` with a global regex, `String.split`).
* Floating-point numbers are modelled as rationals; `Math.sqrt` is modelled
  by `Rat.sqrt`, which agrees with the real square root on the perfect
  squares used by every concrete input of this development.
* Asynchronous calls that can fail are modelled with `Except Unit`; the
  outcome of each external collaborator (embedding provider, Milvus or
  Chroma server, Postgres connection, LLM) is injected as an explicit
  argument.
* Mutable stores are modelled as explicit state (lists of rows / entities)
  threaded through the operations.
-/

namespace WebWhisper

/-! ## JavaScript character classes (ASCII, as used by the source regexes) -/

/-- JS `\w` : `[A-Za-z0-9_]`. -/
def isWordChar (c : Char) : Bool := c.isAlphanum || c == '_'

/-- JS `[a-z]` under the `i` flag: any ASCII letter. -/
def isLetterChar (c : Char) : Bool := c.isAlpha

/-- JS `\s` restricted to the ASCII whitespace characters. -/
def isSpaceChar (c : Char) : Bool :=
  c == ' ' || c == '\t' || c == '\n' || c == '\r' || c == '\x0b' || c == '\x0c'

/-- The character class `[?.,!]` of `cleanQuery`. -/
def isPunctChar (c : Char) : Bool := c == '?' || c == '.' || c == ',' || c == '!'

/-- JS `[A-Z]`. -/
def isUpperChar (c : Char) : Bool := c.isUpper

/-- JS `[a-z]` (no `i` flag). -/
def isLowerChar (c : Char) : Bool := c.isLower

/-- Whether the first character of a list is a word character; the empty
list counts as a non-word position (used for `\b` at the end of input). -/
def headIsWord : List Char → Bool
  | [] => false
  | c :: _ => isWordChar c

/-! ## Basic string utilities -/

/-- Dropping a prefix never lengthens a list (termination helper). -/
theorem dropWhile_len_le (p : Char → Bool) (l : List Char) :
    (l.dropWhile p).length ≤ l.length := by
  induction l with
  | nil => simp
  | cons c rest ih =>
    simp only [List.dropWhile]
    cases p c
    · simp
    · simp
      omega

/-- JS `String.prototype.trim` (on the ASCII whitespace we model). -/
def trimChars (s : List Char) : List Char :=
  ((s.dropWhile isSpaceChar).reverse.dropWhile isSpaceChar).reverse

/-- Helper for `squeezeWs`: the flag records whether the previous kept
character position was inside a whitespace run. -/
def squeezeGo (inRun : Bool) : List Char → List Char
  | [] => []
  | c :: rest =>
    if isSpaceChar c then
      if inRun then squeezeGo true rest else ' ' :: squeezeGo true rest
    else c :: squeezeGo false rest

/-- JS `replace(/\s+/g, ' ')`: collapse every maximal whitespace run into a
single space. -/
def squeezeWs (s : List Char) : List Char := squeezeGo false s

/-- JS `String.prototype.split` on a regex matching maximal runs of
characters satisfying `p` (such as `/\s+/` or `/[\s,]+/`): fields between
the runs, including an empty field before a leading run and after a
trailing run, and `[""]` for the empty string. -/
def jsSplitRuns (p : Char → Bool) : List Char → List (List Char)
  | [] => [[]]
  | c :: rest =>
    if p c then
      match rest with
      | d :: _ => if p d then jsSplitRuns p rest else [] :: jsSplitRuns p rest
      | [] => [[], []]
    else
      match jsSplitRuns p rest with
      | f :: fs => (c :: f) :: fs
      | [] => [[c]]

/-- JS `split(/\s+/)`. -/
def jsSplitWs (s : List Char) : List (List Char) := jsSplitRuns isSpaceChar s

/-- JS `String.prototype.includes` (substring test). -/
def jsIncludes (hay needle : List Char) : Bool :=
  hay.tails.any (fun t => needle.isPrefixOf t)

/-! ## The two letter-sequence regexes of `cleanQuery`

`cleanQuery` (src/src/app/api/kb/search/route.ts, lines 38 to 82) runs two
global replaces:

* pattern 1: `/(\b\w+\b)\s*[,]?\s*((?:[a-z]\s+){2,}[a-z]\s*[?.,!]?)/gi`
* pattern 2: `/\b((?:[a-z]\s+){2,}[a-z]\s*[?.,!]?)\b/gi`

Both are compiled below into scanners that reproduce the leftmost-match,
greedy-with-backtracking behaviour of the JavaScript engine, validated
against a reference regex engine on the boundary cases. -/

/-- One greedy repetition of `(?:[a-z]\s+)`: the letter and the (non-empty,
maximal) whitespace run that follows it. -/
structure LetterRep where
  letter : Char
  ws : List Char

/-- The text consumed by a list of repetitions. -/
def repsFlat (rs : List LetterRep) : List Char :=
  (rs.map (fun r => r.letter :: r.ws)).flatten

/-- Greedily consume `(?:[a-z]\s+)*` (fuelled; each repetition consumes at
least two characters, so `s.length` fuel always suffices). -/
def greedyRepsF : Nat → List Char → List LetterRep × List Char
  | 0, s => ([], s)
  | fuel + 1, s =>
    match s with
    | [] => ([], [])
    | c :: rest =>
      if isLetterChar c then
        let ws := rest.takeWhile isSpaceChar
        if ws.isEmpty then ([], c :: rest)
        else
          let (rs, rem) := greedyRepsF fuel (rest.dropWhile isSpaceChar)
          (⟨c, ws⟩ :: rs, rem)
      else ([], c :: rest)

/-- Greedily consume `(?:[a-z]\s+)*`: as many (letter, whitespace-run)
repetitions as possible.  Returns the repetitions and the rest. -/
def greedyReps (s : List Char) : List LetterRep × List Char :=
  greedyRepsF s.length s

/-- After the mandatory final `[a-z]` of either pattern, match the suffix
`\s*[?.,!]?` of pattern 1 (never fails: both parts optional, no trailing
boundary).  `afterE` is the text after the final letter.  Returns the text
consumed.  Greedy: maximal whitespace, then the punctuation mark if
present. -/
def p1Suffix (afterE : List Char) : List Char × List Char :=
  let ws := afterE.takeWhile isSpaceChar
  let rest := afterE.dropWhile isSpaceChar
  match rest with
  | d :: t => if isPunctChar d then (ws ++ [d], t) else (ws, rest)
  | [] => (ws, [])

/-- After the mandatory final `[a-z]` of pattern 2, match `\s*[?.,!]?\b`
with full backtracking over the amount of whitespace kept by `\s*` (from
maximal down to none) and over the optional punctuation mark, checking the
trailing word boundary `\b` for each candidate in greedy order.  The
character before `afterE` is the final letter (a word character).  Returns
the consumed text and the rest on success. -/
def p2SuffixCand (ws tail : List Char) (f : Nat) : Option (List Char × List Char) :=
  let pre := ws.take f
  let rem := ws.drop f ++ tail
  -- previous character: the final letter if f = 0 (a word char), else whitespace
  let prevW : Bool := f == 0
  let punctCase : Option (List Char × List Char) :=
    match rem with
    | d :: t => if isPunctChar d && headIsWord t then some (pre ++ [d], t) else none
    | [] => none
  match punctCase with
  | some r => some r
  | none => if prevW != headIsWord rem then some (pre, rem) else none

/-- Try the whitespace amounts `f, f-1, ..., 0` in greedy order. -/
def p2SuffixTry (ws tail : List Char) : Nat → Option (List Char × List Char)
  | 0 => p2SuffixCand ws tail 0
  | f + 1 =>
    match p2SuffixCand ws tail (f + 1) with
    | some r => some r
    | none => p2SuffixTry ws tail f

/-- Entry point for the pattern-2 suffix matcher. -/
def p2Suffix (afterE : List Char) : Option (List Char × List Char) :=
  let ws := afterE.takeWhile isSpaceChar
  let tail := afterE.dropWhile isSpaceChar
  p2SuffixTry ws tail ws.length

/-- The shared letter-sequence test of both replacement callbacks of
`cleanQuery`: the part must be a single character that, after stripping
the punctuation marks, still contains a letter. -/
def isLetterPart (p : List Char) : Bool :=
  p.length == 1 && (p.filter (fun c => !isPunctChar c)).any isLetterChar

/-- Strip the punctuation marks from every part, join the parts, and
lower-case the result (the combined token both callbacks build). -/
def combineParts (parts : List (List Char)) : List Char :=
  ((parts.map (fun p => p.filter (fun c => !isPunctChar c))).flatten).map Char.toLower

/-- The pattern-1 callback of `cleanQuery` (lines 51 to 62 of the route):
split the captured letter group on `/[\s,]+/`, keep the non-empty parts,
and collapse them when there are at least three single-letter parts;
otherwise return the whole match unchanged. -/
def p1Callback (word skip letters : List Char) : List Char :=
  let letterParts :=
    (jsSplitRuns (fun c => isSpaceChar c || c == ',') (trimChars letters)).filter
      (fun p => 0 < p.length)
  let isLetterSequence := 3 ≤ letterParts.length && letterParts.all isLetterPart
  if isLetterSequence then word ++ ' ' :: combineParts letterParts
  else word ++ skip ++ letters

/-- The pattern-2 callback of `cleanQuery` (lines 67 to 76): split the
whole match on `/\s+/` and collapse when it is a genuine letter
sequence. -/
def p2Callback (matched : List Char) : List Char :=
  let letterParts := (jsSplitWs (trimChars matched)).filter (fun p => 0 < p.length)
  let isLetterSequence := 3 ≤ letterParts.length && letterParts.all isLetterPart
  if isLetterSequence then combineParts letterParts else matched

/-- Try pattern 1 at a `\b\w+\b` start (the caller guarantees the word
boundary).  On success returns `(matchedText, replacementText, rest)`.

After the word and the `\s*[,]?\s*` skip, the group
`(?:[a-z]\s+){2,}[a-z]\s*[?.,!]?` is matched with the backtracking the
JavaScript engine performs: the repetition is consumed greedily; if the
next character is a letter it serves as the mandatory final `[a-z]`,
otherwise the engine gives back the last repetition (when at least three
were taken) and uses its letter as the final one. -/
def p1TryAt (s : List Char) : Option (List Char × List Char × List Char) :=
  let word := s.takeWhile isWordChar
  let r1 := s.dropWhile isWordChar
  let ws1 := r1.takeWhile isSpaceChar
  let r2 := r1.dropWhile isSpaceChar
  let (comma, r3) :=
    match r2 with
    | ',' :: t => ([','], t)
    | _ => (([] : List Char), r2)
  let ws2 := r3.takeWhile isSpaceChar
  let r4 := r3.dropWhile isSpaceChar
  let skip := ws1 ++ comma ++ ws2
  let (reps, rem) := greedyReps r4
  match rem with
  | c :: remTail =>
    if isLetterChar c && 2 ≤ reps.length then
      -- final [a-z] taken from the rest
      let (sfx, rest) := p1Suffix remTail
      let letters := repsFlat reps ++ c :: sfx
      some (word ++ skip ++ letters, p1Callback word skip letters, rest)
    else if 3 ≤ reps.length then
      -- give back the last repetition; its letter becomes the final [a-z]
      match reps.getLast? with
      | some lastRep =>
        let letters := repsFlat (reps.dropLast) ++ lastRep.letter :: lastRep.ws
        let (sfx, rest) :=
          match rem with
          | d :: t => if isPunctChar d then ([d], t) else (([] : List Char), rem)
          | [] => (([] : List Char), [])
        some (word ++ skip ++ letters ++ sfx,
              p1Callback word skip (letters ++ sfx), rest)
      | none => none
    else none
  | [] =>
    if 3 ≤ reps.length then
      match reps.getLast? with
      | some lastRep =>
        let letters := repsFlat (reps.dropLast) ++ lastRep.letter :: lastRep.ws
        some (word ++ skip ++ letters, p1Callback word skip letters, [])
      | none => none
    else none

/-- Try pattern 2 at a position with a word boundary before a letter (the
caller guarantees the boundary).  Same repetition backtracking as pattern
1, plus the backtracking suffix matcher handling the trailing `\b`. -/
def p2TryAt (s : List Char) : Option (List Char × List Char × List Char) :=
  let (reps, rem) := greedyReps s
  let tryDrop : Option (List Char × List Char × List Char) :=
    if 3 ≤ reps.length then
      match reps.getLast? with
      | some lastRep =>
        match p2Suffix (lastRep.ws ++ rem) with
        | some (sfx, rest) =>
          let matched := repsFlat (reps.dropLast) ++ lastRep.letter :: sfx
          some (matched, p2Callback matched, rest)
        | none => none
      | none => none
    else none
  match rem with
  | c :: remTail =>
    if isLetterChar c && 2 ≤ reps.length then
      match p2Suffix remTail with
      | some (sfx, rest) =>
        let matched := repsFlat reps ++ c :: sfx
        some (matched, p2Callback matched, rest)
      | none => tryDrop
    else tryDrop
  | [] => tryDrop

/-- Global-replace driver for pattern 1: scan left to right; at every
`\b`-before-word-character position attempt a match; on success emit the
replacement and resume after the matched text (word boundaries keep being
judged against the original subject string, so the flag `prevWord` tracks
the last original character). -/
def p1Scan (fuel : Nat) (prevWord : Bool) (s : List Char) : List Char :=
  match fuel with
  | 0 => s
  | fuel + 1 =>
    match s with
    | [] => []
    | c :: rest =>
      if !prevWord && isWordChar c then
        match p1TryAt (c :: rest) with
        | some (matched, rep, rst) =>
          let lastW :=
            match matched.getLast? with
            | some d => isWordChar d
            | none => prevWord
          rep ++ p1Scan fuel lastW rst
        | none => c :: p1Scan fuel (isWordChar c) rest
      else c :: p1Scan fuel (isWordChar c) rest

/-- Global-replace driver for pattern 2 (match starts at a word boundary
followed by a letter). -/
def p2Scan (fuel : Nat) (prevWord : Bool) (s : List Char) : List Char :=
  match fuel with
  | 0 => s
  | fuel + 1 =>
    match s with
    | [] => []
    | c :: rest =>
      if !prevWord && isLetterChar c then
        match p2TryAt (c :: rest) with
        | some (matched, rep, rst) =>
          let lastW :=
            match matched.getLast? with
            | some d => isWordChar d
            | none => prevWord
          rep ++ p2Scan fuel lastW rst
        | none => c :: p2Scan fuel (isWordChar c) rest
      else c :: p2Scan fuel (isWordChar c) rest

/-- `cleanQuery` from src/src/app/api/kb/search/route.ts (lines 38 to 82):
trim and collapse whitespace, run the two letter-by-letter replacement
passes, and normalise whitespace again.  The empty string is returned
unchanged (the `if (!query) return query` guard). -/
def cleanQueryL (s : List Char) : List Char :=
  if s.isEmpty then s
  else
    let c1 := squeezeWs (trimChars s)
    let c2 := p1Scan (c1.length + 1) false c1
    let c3 := p2Scan (c2.length + 1) false c2
    trimChars (squeezeWs c3)

/-- String-level wrapper for `cleanQueryL`. -/
def cleanQuery (s : String) : String := String.mk (cleanQueryL s.data)

/-! ## Query classification (route lines 247 and 248)

* `hasName = /[A-Z][a-z]+(?:\s+[A-Z][a-z]+)+/.test(query)`
* `isShortQuery = query.split(/\s+/).length <= 5`
-/

/-- Match `[A-Z][a-z]+` at the head of the list: an uppercase letter
followed by a maximal non-empty run of lowercase letters.  (Maximal is
complete here: a shorter run would leave a lowercase letter where the
regex next requires whitespace or a boundary.) -/
def titleWordAt (s : List Char) : Option (List Char × List Char) :=
  match s with
  | c :: rest =>
    if isUpperChar c then
      if (rest.takeWhile isLowerChar).isEmpty then none
      else some (c :: rest.takeWhile isLowerChar, rest.dropWhile isLowerChar)
    else none
  | [] => none

/-- Does `[A-Z][a-z]+(?:\s+[A-Z][a-z]+)+` match starting at this position?
One further repetition suffices for the test. -/
def titlePairAt (s : List Char) : Bool :=
  match titleWordAt s with
  | none => false
  | some (_, rest) =>
    if (rest.takeWhile isSpaceChar).isEmpty then false
    else (titleWordAt (rest.dropWhile isSpaceChar)).isSome

/-- `RegExp.test`: try every start position. -/
def hasNameScan : List Char → Bool
  | [] => false
  | c :: rest => titlePairAt (c :: rest) || hasNameScan rest

/-- `hasName` of the route (line 247): the multi-word capitalized-name
regex test. -/
def hasName (q : String) : Bool := hasNameScan q.data

/-- `isShortQuery` of the route (line 248). -/
def isShortQuery (q : String) : Bool := decide ((jsSplitWs q.data).length ≤ 5)

/-- Specification-side reading of the sentence of the claim C5: a token of
the query (split on whitespace) is capitalized when its first character is
an uppercase letter. -/
def specCapitalizedTok (t : List Char) : Bool :=
  match t with
  | c :: _ => isUpperChar c
  | [] => false

/-- Two adjacent capitalized tokens somewhere in a token list. -/
def adjacentCapitalized : List (List Char) → Bool
  | a :: b :: rest =>
    (specCapitalizedTok a && specCapitalizedTok b) || adjacentCapitalized (b :: rest)
  | _ => false

/-- Specification-side reading for C5: two or more consecutive capitalized
tokens appear in the text. -/
def specTwoConsecCapitalized (q : String) : Bool :=
  adjacentCapitalized ((jsSplitWs q.data).filter (fun t => 0 < t.length))

/-- The language of the `hasName` regex, stated declaratively: the text
contains, anywhere (the regex test is unanchored, so possibly in the
middle of a token), an uppercase letter followed by lowercase letters,
then whitespace, then another such TitleCase word. -/
def TitleTok (w : List Char) : Prop :=
  ∃ c lo, w = c :: lo ∧ isUpperChar c = true ∧ lo ≠ [] ∧ ∀ d ∈ lo, isLowerChar d = true

/-- A non-empty whitespace run. -/
def WsRun (g : List Char) : Prop := g ≠ [] ∧ ∀ d ∈ g, isSpaceChar d = true

/-- Declarative statement matched against `hasName` in the amended C5. -/
def hasNamePred (s : List Char) : Prop :=
  ∃ pre w1 g w2 suf,
    s = pre ++ w1 ++ g ++ w2 ++ suf ∧ TitleTok w1 ∧ WsRun g ∧ TitleTok w2

/-! ## `extractKeyTerms` (route lines 208 to 243) -/

/-- The stop-word list of `extractKeyTerms`. -/
def stopWords : List String :=
  ["the", "a", "an", "and", "or", "but", "in", "on", "at", "to", "for",
   "of", "with", "by", "from", "as", "is", "was", "are", "were", "be",
   "been", "being", "have", "has", "had", "do", "does", "did", "will",
   "would", "should", "could", "may", "might", "must", "can", "this",
   "that", "these", "those", "i", "you", "he", "she", "it", "we", "they",
   "what", "where", "when", "why", "how", "tell", "me", "about", "am",
   "not", "no", "yes", "yeah", "um", "uh"]

/-- Greedily consume `(?:\s+[A-Z][a-z]+)*` for the capitalized-run regex
(fuelled; each repetition consumes at least three characters). -/
def capRepsF : Nat → List Char → List (List Char × List Char) × List Char
  | 0, s => ([], s)
  | fuel + 1, s =>
    let ws := s.takeWhile isSpaceChar
    if ws.isEmpty then ([], s)
    else
      match titleWordAt (s.dropWhile isSpaceChar) with
      | none => ([], s)
      | some (w, rest) =>
        let (rs, rem) := capRepsF fuel rest
        ((ws, w) :: rs, rem)

/-- The text consumed by a list of capitalized-run repetitions. -/
def capRepsFlat (rs : List (List Char × List Char)) : List Char :=
  (rs.map (fun r => r.1 ++ r.2)).flatten

/-- Match `\b[A-Z][a-z]+(?:\s+[A-Z][a-z]+)*\b` at a position whose word
boundary the caller has checked.  If the character after the greedily
consumed repetitions is a word character, the trailing `\b` fails and the
engine gives back the last repetition (after which the boundary between a
lowercase letter and whitespace always holds); with no repetition to give
back the match fails. -/
def capMatchAt (s : List Char) : Option (List Char × List Char) :=
  match titleWordAt s with
  | none => none
  | some (w, rest) =>
    let (reps, rem) := capRepsF rest.length rest
    if headIsWord rem then
      match reps.getLast? with
      | some lastRep =>
        some (w ++ (capRepsFlat reps.dropLast), lastRep.1 ++ lastRep.2 ++ rem)
      | none => none
    else some (w ++ capRepsFlat reps, rem)

/-- `text.match(/\b[A-Z][a-z]+(?:\s+[A-Z][a-z]+)*\b/g) || []`: collect all
matches left to right. -/
def capScan (fuel : Nat) (prevWord : Bool) (s : List Char) : List (List Char) :=
  match fuel with
  | 0 => []
  | fuel + 1 =>
    match s with
    | [] => []
    | c :: rest =>
      if !prevWord && isUpperChar c then
        match capMatchAt (c :: rest) with
        | some (m, rst) => m :: capScan fuel true rst
        | none => capScan fuel (isWordChar c) rest
      else capScan fuel (isWordChar c) rest

/-- The capitalized-word matches of `extractKeyTerms` (line 221). -/
def capitalizedWords (s : List Char) : List (List Char) :=
  capScan (s.length + 1) false s

/-- Stable insertion of `x` into a list sorted by strictly decreasing key:
`x` goes after every element whose key is at least as large, which is the
placement a stable descending comparator sort produces. -/
def insertDescBy (key : List Char → Nat) (x : List Char) :
    List (List Char) → List (List Char)
  | [] => [x]
  | y :: ys => if key y < key x then x :: y :: ys else y :: insertDescBy key x ys

/-- Stable sort by descending key, as `Array.prototype.sort` (stable per
the ECMAScript specification) with comparator `(a, b) => key(b) - key(a)`:
elements are taken left to right and each is placed after the existing
elements with an equal or larger key. -/
def sortDescBy (key : List Char → Nat) (l : List (List Char)) : List (List Char) :=
  l.foldl (fun acc x => insertDescBy key x acc) []

/-- `extractKeyTerms` of the route (lines 208 to 243): capitalized names
(lower-cased) plus the other words longer than two characters that are not
stop words, deduplicated keeping the first occurrence, sorted by
descending length (stable), cut to the first ten, joined by spaces. -/
def extractKeyTermsL (text : List Char) : List (List Char) :=
  let caps := capitalizedWords text
  let lowered := (text.map Char.toLower).map
    (fun c => if !(isWordChar c || isSpaceChar c) then ' ' else c)
  let words := (jsSplitWs lowered).filter
    (fun w => 2 < w.length && !(stopWords.contains (String.mk w)))
  let allTerms := caps.map (fun w => w.map Char.toLower) ++ words
  let uniqueTerms := allTerms.foldl
    (fun acc t => if acc.contains t then acc else acc ++ [t]) []
  (sortDescBy List.length uniqueTerms).take 10

/-- Join term lists with single spaces (JS `join(' ')`). -/
def joinSpace : List (List Char) → List Char
  | [] => []
  | x :: xs => x ++ (xs.map (fun t => ' ' :: t)).flatten

/-- String-level `extractKeyTerms`. -/
def extractKeyTerms (text : String) : String :=
  String.mk (joinSpace (extractKeyTermsL text.data))

/-- The search-query selection of the route (lines 250 to 261): name-bearing
or short queries bypass extraction; otherwise the key-term condensation is
used, falling back to the query when the condensation is empty
(`searchQuery = keyTerms || query`). -/
def searchQueryOf (query : String) : String :=
  if hasName query || isShortQuery query then query
  else
    let keyTerms := extractKeyTerms query
    if keyTerms = "" then query else keyTerms

deriving instance DecidableEq for Except

/-! ## Shared ingestion input -/

/-- One chunk handed to a store operation: text plus its embedding vector
(metadata maps are dropped as claim-irrelevant). -/
structure ChunkIn where
  content : String
  embedding : List ℚ
deriving DecidableEq

/-- The fixed process-wide embedding dimension (`EMBEDDING_DIMENSION` in
database-milvus.ts, the `vector(768)` column in database.ts). -/
def EMBEDDING_DIMENSION : Nat := 768

/-! ## Milvus backend (src/src/lib/database-milvus.ts) -/

namespace Milvus

/-- One entity of the `ragProj` collection, per the schema of
database-milvus.ts. -/
structure Entity where
  id : Nat
  embedding : List ℚ
  url : String
  title : String
  content : String
  crawled_at : Nat
  summary : Option String
deriving DecidableEq

/-- `storeWebsiteChunks` (lines 154 to 204): generate timestamp-based ids
and insert the entities.  No delete of previously stored chunks for the
url happens anywhere in the function; insertion simply appends. -/
def storeWebsiteChunks (collection : List Entity) (baseTimestamp : Nat)
    (url title description : String) (contentChunks : List ChunkIn) :
    List Entity :=
  let entities := contentChunks.enum.map (fun p =>
    { id := baseTimestamp + p.1
      embedding := p.2.embedding
      url := url
      title := if title = "" then "Untitled" else title
      content := p.2.content
      crawled_at := baseTimestamp
      summary := if description = "" then none else some description : Entity })
  collection ++ entities

/-- Number of stored entities for a url. -/
def urlChunkCount (collection : List Entity) (url : String) : Nat :=
  (collection.filter (fun e => e.url == url)).length

/-- One raw hit of `client.search` as the Milvus server returns it:
the output fields plus the native L2 distance. -/
structure Hit where
  id : Nat
  url : String
  title : String
  content : String
  crawled_at : Nat
  summary : Option String
  distance : ℚ
deriving DecidableEq

/-- A processed retrieval result. -/
structure ResultItem where
  content : String
  url : String
  title : String
  similarity : ℚ
deriving DecidableEq

/-- `searchSimilarContent` (lines 207 to 333), with the raw server
response injected as `hits` (the server returns at most `limit` hits,
sorted by ascending distance).  The function throws when the query
embedding does not have exactly 768 entries; otherwise it converts each
distance to the shared similarity (`1 - distance`), filters by the
threshold, and, when nothing clears the threshold but hits exist, returns
the top `min(3, available)` hits anyway. -/
def searchSimilarContent (queryEmbedding : List ℚ) (limit : Nat)
    (similarityThreshold : ℚ) (hits : List Hit) :
    Except Unit (List ResultItem) :=
  if queryEmbedding.length ≠ EMBEDDING_DIMENSION then .error ()
  else
    let resultsArray := hits.take limit
    if resultsArray.isEmpty then .ok []
    else
      let allResults := resultsArray.map (fun h =>
        { content := h.content, url := h.url, title := h.title
          similarity := 1 - h.distance : ResultItem })
      let filteredResults := allResults.filter
        (fun item => similarityThreshold ≤ item.similarity)
      let finalResults :=
        if filteredResults.isEmpty && !allResults.isEmpty then
          allResults.take (min 3 allResults.length)
        else filteredResults
      .ok finalResults

/-- One row of the `client.query` used by `getAllWebsites`. -/
structure QueryRow where
  url : String
  title : String
  crawled_at : Nat
deriving DecidableEq

/-- A deduplicated website entry. -/
structure WebsiteInfo where
  url : String
  title : String
  crawled_at : Nat
deriving DecidableEq

/-- The website entry built from a queried row, with the Untitled
fallback for an empty title. -/
def mkWebsiteInfo (item : QueryRow) : WebsiteInfo :=
  { url := item.url
    title := if item.title = "" then "Untitled" else item.title
    crawled_at := item.crawled_at }

/-- One `forEach` step of `getAllWebsites`: insert only when the url is
truthy and not yet present (`if (item.url && !websites.has(item.url))`). -/
def websitesStep (acc : List WebsiteInfo) (item : QueryRow) : List WebsiteInfo :=
  if item.url ≠ "" && !(acc.any (fun e => e.url == item.url)) then
    acc ++ [mkWebsiteInfo item]
  else acc

/-- `getAllWebsites` (lines 336 to 369): group the queried rows by url
into a JS `Map`, inserting an entry only when the url is not yet present,
so the first-seen metadata for each url is kept. -/
def getAllWebsites (rows : List QueryRow) : List WebsiteInfo :=
  rows.foldl websitesStep []

end Milvus

/-! ## Chroma backend (src/lib/database-chroma.ts, the version imported by
the crawl and chat routes) -/

namespace Chroma

/-- One stored Chroma document with its metadata. -/
structure Entry where
  url : String
  title : String
  description : String
  content : String
  embedding : List ℚ
  chunkIndex : Nat
deriving DecidableEq

/-- `storeWebsiteData`: validates that every embedding is a non-empty
array (`!Array.isArray(emb) || emb.length === 0` throws) and then appends
the documents with ids derived from the url, the chunk index and the
current time.  No length-768 check and no delete of existing chunks for
the url. -/
def storeWebsiteData (collection : List Entry) (url title description : String)
    (contentChunks : List ChunkIn) : Except Unit (List Entry) :=
  if contentChunks.any (fun c => c.embedding.isEmpty) then .error ()
  else
    .ok (collection ++ contentChunks.enum.map (fun p =>
      { url := url
        title := if title = "" then "Untitled" else title
        description := if description = "" then "No description" else description
        content := p.2.content
        embedding := p.2.embedding
        chunkIndex := p.1 : Entry }))

/-- One metadata record returned by `collection.get` in `getAllWebsites`. -/
structure Meta where
  url : String
  title : String
  description : String
  crawledAt : Nat
deriving DecidableEq

/-- A deduplicated website entry of the Chroma backend. -/
structure WebsiteInfo where
  url : String
  title : String
  description : String
  crawledAt : Nat
deriving DecidableEq

/-- The entry built from one metadata record. -/
def mkWebsiteInfo (m : Meta) : WebsiteInfo :=
  { url := m.url
    title := if m.title = "" then "Untitled" else m.title
    description := m.description
    crawledAt := m.crawledAt }

/-- One `forEach` step of the Chroma `getAllWebsites`:
`websites.set(metadata.url, ...)` guarded by `if (metadata && metadata.url)`.
A JS `Map.set` on an existing key keeps the insertion position and
overwrites the value. -/
def websitesStep (acc : List WebsiteInfo) (m : Meta) : List WebsiteInfo :=
  if m.url ≠ "" then
    if acc.any (fun e => e.url == m.url) then
      acc.map (fun e => if e.url == m.url then mkWebsiteInfo m else e)
    else acc ++ [mkWebsiteInfo m]
  else acc

/-- `getAllWebsites` of the Chroma backend: the most-recently-seen
metadata for each url wins. -/
def getAllWebsites (metas : List Meta) : List WebsiteInfo :=
  metas.foldl websitesStep []

end Chroma

/-! ## Postgres backends (src/src/lib/database.ts and
src/src/lib/database-simple.ts)

Both files implement `storeWebsiteData` with the identical transaction:
`BEGIN`, upsert of the website row (`INSERT ... ON CONFLICT (url) DO
UPDATE ... RETURNING id`), `DELETE FROM content_chunks WHERE website_id =
$1`, one `INSERT` per chunk, `COMMIT`; any error triggers `ROLLBACK` and
is re-thrown.  They differ only in how the embedding is stored (a
`vector(768)` column versus a JSON text column); the model below keeps the
embedding as the list of rationals, which is exactly the information the
`embedding_json` column of database-simple.ts persists (that column places
no constraint on the vector length). -/

namespace Pg

/-- A row of the `websites` table. -/
structure WebsiteRow where
  id : Nat
  url : String
  title : String
  description : String
deriving DecidableEq

/-- A row of the `content_chunks` table. -/
structure ChunkRow where
  websiteId : Nat
  content : String
  embedding : List ℚ
deriving DecidableEq

/-- The visible (committed) database state; `nextId` models the `SERIAL`
primary key of `websites`. -/
structure DB where
  websites : List WebsiteRow
  chunks : List ChunkRow
  nextId : Nat
deriving DecidableEq

/-- The statements of `storeWebsiteData` that can fail; a failure of any
of them aborts the transaction. -/
inductive StoreStep
  | upsertWebsite
  | deleteChunks
  | insertChunk (i : Nat)
deriving DecidableEq

/-- The website upsert: update title and description when the url exists
(keeping the id), insert a fresh row otherwise.  Returns the id the
`RETURNING id` clause yields. -/
def upsertWebsiteQuery (db : DB) (url title description : String) : DB × Nat :=
  match db.websites.find? (fun w => w.url == url) with
  | some w =>
    ({ db with websites := db.websites.map (fun x =>
        if x.url == url then { x with title := title, description := description }
        else x) }, w.id)
  | none =>
    ({ db with
        websites := db.websites ++ [⟨db.nextId, url, title, description⟩]
        nextId := db.nextId + 1 }, db.nextId)

/-- `DELETE FROM content_chunks WHERE website_id = $1`: keep exactly the
rows whose website id differs. -/
def deleteChunksQuery (db : DB) (websiteId : Nat) : DB :=
  { db with chunks := db.chunks.filter (fun c => !(c.websiteId == websiteId)) }

/-- One `INSERT INTO content_chunks ...`. -/
def insertChunkQuery (db : DB) (websiteId : Nat) (c : ChunkIn) : DB :=
  { db with chunks := db.chunks ++ [⟨websiteId, c.content, c.embedding⟩] }

/-- The per-chunk insert loop, acting on the working state of the open
transaction; the oracle `fails` injects a failure of the i-th insert. -/
def insertChunksLoop (working : DB) (websiteId : Nat) (chunks : List ChunkIn)
    (i : Nat) (fails : StoreStep → Bool) : Except Unit DB :=
  match chunks with
  | [] => .ok working
  | c :: rest =>
    if fails (.insertChunk i) then .error ()
    else insertChunksLoop (insertChunkQuery working websiteId c) websiteId rest
      (i + 1) fails

/-- `storeWebsiteData` (database.ts lines 58 to 102, database-simple.ts
lines 54 to 98).  The statements between `BEGIN` and `COMMIT` act on a
working state; only `COMMIT` publishes it.  On any failure the `catch`
block issues `ROLLBACK` - the committed state passed in is returned
untouched - and the error is re-thrown (`.error`). -/
def storeWebsiteData (db : DB) (url title description : String)
    (contentChunks : List ChunkIn) (fails : StoreStep → Bool) :
    Except Unit Nat × DB :=
  -- BEGIN: the working state starts as the committed state
  let working := db
  if fails .upsertWebsite then (.error (), db)
  else
    let up := upsertWebsiteQuery working url title description
    if fails .deleteChunks then (.error (), db)
    else
      let working2 := deleteChunksQuery up.1 up.2
      match insertChunksLoop working2 up.2 contentChunks 0 fails with
      | .error _ => (.error (), db)
      | .ok working3 => (.ok up.2, working3)  -- COMMIT

/-- The oracle of a run in which every statement succeeds. -/
def noFailure : StoreStep → Bool := fun _ => false

/-- Number of chunk rows stored for a url: the rows whose `website_id`
joins to the (first) `websites` row carrying the url. -/
def urlChunkCount (db : DB) (url : String) : Nat :=
  match db.websites.find? (fun w => w.url == url) with
  | none => 0
  | some w => (db.chunks.filter (fun c => c.websiteId == w.id)).length

end Pg

/-! ## The in-memory cosine search of database-simple.ts -/

namespace SimpleDb

/-- One joined row of the `SELECT` in `searchSimilarContent`: chunk
content and embedding plus the website url and title. -/
structure Row where
  content : String
  embedding : List ℚ
  url : String
  title : String
deriving DecidableEq

/-- A scored result. -/
structure ResultItem where
  content : String
  url : String
  title : String
  similarity : ℚ
deriving DecidableEq

/-- `cosineSimilarity` (database-simple.ts lines 101 to 115): zero when
the lengths differ, otherwise the dot product over the product of the
norms.  `Math.sqrt` is modelled by `Rat.sqrt`, exact on the perfect
squares this development evaluates it at. -/
def cosineSimilarity (a b : List ℚ) : ℚ :=
  if a.length ≠ b.length then 0
  else
    let dotProduct := ((a.zip b).map (fun p => p.1 * p.2)).sum
    let normA := (a.map (fun x => x * x)).sum
    let normB := (b.map (fun x => x * x)).sum
    dotProduct / (Rat.sqrt normA * Rat.sqrt normB)

/-- Stable insertion for the descending similarity sort. -/
def insertBySim (x : ResultItem) : List ResultItem → List ResultItem
  | [] => [x]
  | y :: ys => if y.similarity < x.similarity then x :: y :: ys
               else y :: insertBySim x ys

/-- Stable descending sort by similarity (`sort((a, b) => b.similarity -
a.similarity)`). -/
def sortBySim (l : List ResultItem) : List ResultItem :=
  l.foldl (fun acc x => insertBySim x acc) []

/-- `searchSimilarContent` (database-simple.ts lines 118 to 159): score
every stored row by cosine similarity against the query embedding, keep
those *strictly above* the threshold, sort by descending similarity and
take the first `limit`.  There is no relaxation step: when nothing clears
the threshold the result is empty. -/
def searchSimilarContent (rows : List Row) (queryEmbedding : List ℚ)
    (limit : Nat) (similarityThreshold : ℚ) : List ResultItem :=
  let similarities := rows.map (fun r =>
    { content := r.content, url := r.url, title := r.title
      similarity := cosineSimilarity queryEmbedding r.embedding : ResultItem })
  ((sortBySim (similarities.filter
      (fun item => similarityThreshold < item.similarity))).take limit)

end SimpleDb

/-! ## The Vapi knowledge-base route (src/src/app/api/kb/search/route.ts,
`POST`, lines 119 to 364)

The model starts where the user query has been extracted from the request
body (the message-plumbing before line 202 is claim-irrelevant) and
injects the outcome of each external call: the health probe
`checkCollectionData` (which never throws - it catches internally and
reports no data), the embedding provider, and the Milvus search server.
The returned trace records, in order, the stages the claims C6 and C7
speak about; `Stage.embed` is recorded exactly when `createQueryEmbedding`
is invoked and `Stage.search` exactly when `searchSimilarContent` is
invoked.  `Stage.greetingCheck` exists in the vocabulary but no code path
emits it: the route contains no greeting handling. -/

namespace KbSearch

/-- The orchestration stages. -/
inductive Stage
  | received
  | greetingCheck
  | normalize
  | strategy
  | tooShortCheck
  | indexEmptyCheck
  | embed
  | search
  | rankTrim
  | enrich
  | respond
deriving DecidableEq

/-- Result of `checkCollectionData`. -/
structure HealthResult where
  hasData : Bool
  count : Nat
deriving DecidableEq

/-- One returned document. -/
structure KbDoc where
  content : String
  similarity : ℚ
deriving DecidableEq

/-- The response of the route; every modelled path returns HTTP 200 with a
`documents` array. -/
structure KbResponse where
  status : Nat
  documents : List KbDoc
deriving DecidableEq

/-- The injected environment of one request. -/
structure Input where
  query : String
  health : HealthResult
  embedOutcome : Except Unit (List ℚ)
  serverOutcome : Except Unit (List Milvus.Hit)

/-- Stable insertion for the route-side descending similarity sort. -/
def insertBySim (x : Milvus.ResultItem) :
    List Milvus.ResultItem → List Milvus.ResultItem
  | [] => [x]
  | y :: ys => if y.similarity < x.similarity then x :: y :: ys
               else y :: insertBySim x ys

/-- `sort((a, b) => (b.similarity || 0) - (a.similarity || 0))`, stable. -/
def sortBySim (l : List Milvus.ResultItem) : List Milvus.ResultItem :=
  l.foldl (fun acc x => insertBySim x acc) []

/-- The enrichment of one document (lines 311 to 335): prefix the content
with `[From: title]` when a title exists and append `[Source: url]` when a
url exists and is not already contained in the content. -/
def enrichDoc (item : Milvus.ResultItem) : KbDoc :=
  let enhanced1 :=
    if item.title ≠ "" then "[From: " ++ item.title ++ "]\n" ++ item.content
    else item.content
  let enhanced2 :=
    if item.url ≠ "" && !(jsIncludes enhanced1.data item.url.data) then
      enhanced1 ++ "\n[Source: " ++ item.url ++ "]"
    else enhanced1
  { content := enhanced2, similarity := item.similarity }

/-- The `POST` handler from the point the raw query is in hand (line 202
onward), returning the response and the stage trace. -/
def post (inp : Input) : KbResponse × List Stage :=
  let t0 := [Stage.received]
  -- line 203: query = cleanQuery(query)
  let query := cleanQuery inp.query
  let t1 := t0 ++ [Stage.normalize]
  -- lines 247 to 261: classification and search-query selection
  let hasNameQ := hasName query
  let t2 := t1 ++ [Stage.strategy]
  -- lines 264 to 267: reject queries shorter than two characters
  let t3 := t2 ++ [Stage.tooShortCheck]
  if (String.mk (trimChars query.data)).length < 2 then
    (⟨200, []⟩, t3 ++ [Stage.respond])
  else
    -- lines 270 to 274: short-circuit when the collection has no data
    let t4 := t3 ++ [Stage.indexEmptyCheck]
    if !inp.health.hasData then (⟨200, []⟩, t4 ++ [Stage.respond])
    else
      -- lines 277 to 285: embedding call; on failure return empty documents
      let t5 := t4 ++ [Stage.embed]
      match inp.embedOutcome with
      | .error _ => (⟨200, []⟩, t5 ++ [Stage.respond])
      | .ok queryEmbedding =>
        -- lines 291 to 296: Milvus search; any thrown error reaches the
        -- outer catch, which returns empty documents with status 200
        let t6 := t5 ++ [Stage.search]
        let maxSearchResults := if hasNameQ then 15 else 10
        match inp.serverOutcome with
        | .error _ => (⟨200, []⟩, t6 ++ [Stage.respond])
        | .ok hits =>
          match Milvus.searchSimilarContent queryEmbedding maxSearchResults
              (1/5) hits with
          | .error _ => (⟨200, []⟩, t6 ++ [Stage.respond])
          | .ok relevantContent =>
            -- lines 302 to 305: sort by similarity, keep the top documents
            let t7 := t6 ++ [Stage.rankTrim]
            let topCount := if hasNameQ then 7 else 5
            let topDocuments := (sortBySim relevantContent).take topCount
            -- lines 311 to 335: enrichment
            let t8 := t7 ++ [Stage.enrich]
            let documents := topDocuments.map enrichDoc
            (⟨200, documents⟩, t8 ++ [Stage.respond])

end KbSearch

/-! ## The chat route (src/src/app/api/chat/route.ts, `POST`) -/

namespace Chat

/-- One search hit as the Chroma-backed `searchSimilarContent` returns it
to the chat route. -/
structure SearchItem where
  content : String
  url : String
  title : String
  similarity : ℚ
deriving DecidableEq

/-- A source reference of the response. -/
structure Source where
  url : String
  title : String
  similarity : ℚ
deriving DecidableEq

/-- The body of a chat response. -/
inductive Body
  | err (error : String)
  | answer (response : String) (relevantContent : List String)
      (sources : List Source)
deriving DecidableEq

/-- A chat response with its HTTP status. -/
structure Response where
  status : Nat
  body : Body
deriving DecidableEq

/-- The canned low-confidence reply the route returns when the search
yields no relevant content. -/
def noInfoMessage : String :=
  "I don\x27t have enough information about this topic from the crawled website content. Could you try asking about something else or provide more context?"

/-- The `POST` handler of the chat route.  A missing or empty message is
rejected with 400.  The embedding call, the search call and the LLM call
run inside one try/catch whose catch returns **status 500** with an error
body - internal search-path failures are propagated as error responses,
not converted into an empty result.  Only the case of a successful search
with zero results produces the canned low-confidence 200 response. -/
def post (message : Option String) (embedOutcome : Except Unit (List ℚ))
    (searchOutcome : Except Unit (List SearchItem))
    (llmOutcome : Except Unit String) : Response :=
  match message with
  | none => ⟨400, .err "Message is required"⟩
  | some m =>
    if m = "" then ⟨400, .err "Message is required"⟩
    else
      match embedOutcome with
      | .error _ => ⟨500, .err "Failed to process chat message"⟩
      | .ok _ =>
        match searchOutcome with
        | .error _ => ⟨500, .err "Failed to process chat message"⟩
        | .ok relevantContent =>
          if relevantContent.isEmpty then
            ⟨200, .answer noInfoMessage [] []⟩
          else
            match llmOutcome with
            | .error _ => ⟨500, .err "Failed to process chat message"⟩
            | .ok response =>
              ⟨200, .answer response (relevantContent.map (fun i => i.content))
                (relevantContent.map (fun i => ⟨i.url, i.title, i.similarity⟩))⟩

end Chat

/-! # Theorems settling the claims -/

/-! ## C4 : the letter-sequence collapse of `cleanQuery` -/

/-- C4 (code bug): the spec and the code comment of pattern 2 promise
`cleanTranscription("a x c e n d") = "axcend"`, but pattern 1 runs first
and captures the leading letter `a` as its `\b\w+\b` word, collapsing only
the remaining five letters: the code produces `"a xcend"`. -/
theorem C4_cleanQuery_spec_example_fails :
    cleanQuery "a x c e n d" = "a xcend" ∧ ("a xcend" : String) ≠ "axcend" := by
  decide

/-! ## C1 : delete-then-insert upsert and idempotence -/

/-- Helper: with no failing statement, the chunk-insert loop appends the
rows of all chunks to the working state. -/
theorem Pg.insertChunksLoop_noFailure (chunks : List ChunkIn) (working : Pg.DB)
    (websiteId : Nat) (i : Nat) :
    Pg.insertChunksLoop working websiteId chunks i Pg.noFailure =
      .ok { working with
              chunks := working.chunks ++
                chunks.map (fun c => ⟨websiteId, c.content, c.embedding⟩) } := by
  induction chunks generalizing working i with
  | nil => simp [Pg.insertChunksLoop]
  | cons c rest ih =>
    simp [Pg.insertChunksLoop, Pg.noFailure, Pg.insertChunkQuery, ih]

/-- Helper: when the chunk-insert loop succeeds, every chunk row has been
appended to the working state. -/
theorem Pg.insertChunksLoop_ok_chunks (chunks : List ChunkIn) (working : Pg.DB)
    (websiteId : Nat) (i : Nat) (fails : Pg.StoreStep → Bool) (w : Pg.DB)
    (h : Pg.insertChunksLoop working websiteId chunks i fails = .ok w) :
    w.chunks = working.chunks ++
      chunks.map (fun c => ⟨websiteId, c.content, c.embedding⟩) := by
  induction chunks generalizing working i with
  | nil =>
    simp only [Pg.insertChunksLoop, Except.ok.injEq] at h
    simp [← h]
  | cons c rest ih =>
    simp only [Pg.insertChunksLoop] at h
    split at h
    · exact absurd h (by simp)
    · have := ih (Pg.insertChunkQuery working websiteId c) (i + 1) h
      simpa [Pg.insertChunkQuery] using this

/-- Helper: after the website upsert, looking the url up again finds a row
whose id is the id the upsert returned. -/
theorem Pg.upsertWebsiteQuery_find (db : Pg.DB) (url title description : String) :
    ∃ w, ((Pg.upsertWebsiteQuery db url title description).1).websites.find?
        (fun x => x.url == url) = some w ∧
      w.id = (Pg.upsertWebsiteQuery db url title description).2 := by
  unfold Pg.upsertWebsiteQuery
  cases hf : db.websites.find? (fun w => w.url == url) with
  | none =>
    refine ⟨⟨db.nextId, url, title, description⟩, ?_, rfl⟩
    simp [List.find?_append, hf]
  | some w =>
    have hw : (w.url == url) = true := by simpa using List.find?_some hf
    refine ⟨{ w with title := title, description := description }, ?_, rfl⟩
    have hpred : ((fun x => x.url == url) ∘ (fun (x : Pg.WebsiteRow) =>
        if x.url == url then { x with title := title, description := description }
        else x)) = (fun (x : Pg.WebsiteRow) => x.url == url) := by
      funext x
      by_cases hx : (x.url == url) = true <;> simp [Function.comp, hx]
    simp only [List.find?_map, hpred, hf, Option.map_some', hw, if_pos]

/-- Helper: with no failing statement the store commits, and the committed
chunk table is the old table minus the url's rows plus the new rows. -/
theorem Pg.storeWebsiteData_noFailure (db : Pg.DB) (url title description : String)
    (chunks : List ChunkIn) :
    (Pg.storeWebsiteData db url title description chunks Pg.noFailure).2 =
      { websites := (Pg.upsertWebsiteQuery db url title description).1.websites
        chunks :=
          db.chunks.filter (fun c =>
            !(c.websiteId == (Pg.upsertWebsiteQuery db url title description).2)) ++
          chunks.map (fun c =>
            ⟨(Pg.upsertWebsiteQuery db url title description).2,
              c.content, c.embedding⟩)
        nextId := (Pg.upsertWebsiteQuery db url title description).1.nextId } := by
  unfold Pg.storeWebsiteData
  simp only [Pg.noFailure, Bool.false_eq_true, if_neg, ite_false]
  rw [Pg.insertChunksLoop_noFailure]
  have hchunks : (Pg.upsertWebsiteQuery db url title description).1.chunks =
      db.chunks := by
    unfold Pg.upsertWebsiteQuery
    cases db.websites.find? (fun w => w.url == url) <;> simp
  simp [Pg.deleteChunksQuery, hchunks]

/-- Helper: a single fully successful store leaves exactly the new chunk
set attached to the url. -/
theorem Pg.urlChunkCount_store (db : Pg.DB) (url title description : String)
    (chunks : List ChunkIn) :
    Pg.urlChunkCount
      (Pg.storeWebsiteData db url title description chunks Pg.noFailure).2 url =
      chunks.length := by
  rw [Pg.storeWebsiteData_noFailure]
  obtain ⟨w, hw, hid⟩ := Pg.upsertWebsiteQuery_find db url title description
  unfold Pg.urlChunkCount
  simp only [hw]
  rw [List.filter_append]
  have h1 : (db.chunks.filter (fun c =>
      !(c.websiteId == (Pg.upsertWebsiteQuery db url title description).2))).filter
        (fun c => c.websiteId == w.id) = [] := by
    rw [List.filter_eq_nil_iff]
    intro a ha
    have := List.of_mem_filter ha
    simp only [hid] at *
    simp_all
  have h2 : (chunks.map (fun c =>
      (⟨(Pg.upsertWebsiteQuery db url title description).2, c.content,
        c.embedding⟩ : Pg.ChunkRow))).filter (fun c => c.websiteId == w.id) =
      chunks.map (fun c =>
        (⟨(Pg.upsertWebsiteQuery db url title description).2, c.content,
          c.embedding⟩ : Pg.ChunkRow)) := by
    rw [List.filter_eq_self]
    intro a ha
    obtain ⟨c, _, rfl⟩ := List.mem_map.mp ha
    simp [hid]
  simp [h1, h2]

/-- C1 (counterexample): the Milvus backend `storeWebsiteChunks` never
deletes the previously stored chunks of the url - it only inserts - so
storing the identical one-chunk list twice leaves two entries for the url
instead of `len(chunks) = 1`. -/
theorem C1_milvus_upsert_duplicates :
    Milvus.urlChunkCount
      (Milvus.storeWebsiteChunks
        (Milvus.storeWebsiteChunks [] 0 "https://example.com" "Example" "About"
          [⟨"chunk one", List.replicate 768 0⟩])
        1000 "https://example.com" "Example" "About"
        [⟨"chunk one", List.replicate 768 0⟩])
      "https://example.com" = 2 ∧ (2 : Nat) ≠ 1 := by
  constructor
  · decide
  · decide

/-- C1 (amended): the Postgres backends (database.ts and
database-simple.ts) do delete all previously stored chunks of the url
inside the same transaction before inserting, so calling
`storeWebsiteData` twice with identical chunks leaves exactly
`len(chunks)` rows for the url; the Milvus backend `storeWebsiteChunks`
only appends (callers must delete separately), so there the double call
duplicates. -/
theorem C1_pg_upsert_idempotent (db : Pg.DB)
    (url title1 description1 title2 description2 : String)
    (chunks : List ChunkIn) :
    Pg.urlChunkCount
      (Pg.storeWebsiteData
        (Pg.storeWebsiteData db url title1 description1 chunks Pg.noFailure).2
        url title2 description2 chunks Pg.noFailure).2 url = chunks.length :=
  Pg.urlChunkCount_store _ url title2 description2 chunks

/-! ## C10 : transactional atomicity of the Postgres store -/

/-- C10: `storeWebsiteData` of the Postgres backends runs inside one
BEGIN/COMMIT transaction; every failure (website upsert, chunk delete, or
any per-chunk insert) rolls the working state back and re-raises, so the
committed state observable after a failed call equals the state before the
call, and a successful call commits exactly the replaced chunk set for the
returned website id. -/
theorem C10_pg_store_atomic (db : Pg.DB) (url title description : String)
    (chunks : List ChunkIn) (fails : Pg.StoreStep → Bool) :
    ((Pg.storeWebsiteData db url title description chunks fails).1 = .error () →
      (Pg.storeWebsiteData db url title description chunks fails).2 = db)
    ∧ (∀ websiteId,
        (Pg.storeWebsiteData db url title description chunks fails).1 =
          .ok websiteId →
        (Pg.storeWebsiteData db url title description chunks fails).2.chunks =
          db.chunks.filter (fun c => !(c.websiteId == websiteId)) ++
            chunks.map (fun c => ⟨websiteId, c.content, c.embedding⟩)) := by
  by_cases h1 : fails .upsertWebsite = true
  · constructor
    · intro _; simp [Pg.storeWebsiteData, h1]
    · intro websiteId hok
      simp [Pg.storeWebsiteData, h1] at hok
  · by_cases h2 : fails .deleteChunks = true
    · constructor
      · intro _; simp [Pg.storeWebsiteData, h1, h2]
      · intro websiteId hok
        simp [Pg.storeWebsiteData, h1, h2] at hok
    · cases hloop : Pg.insertChunksLoop
          (Pg.deleteChunksQuery
            (Pg.upsertWebsiteQuery db url title description).1
            (Pg.upsertWebsiteQuery db url title description).2)
          (Pg.upsertWebsiteQuery db url title description).2 chunks 0 fails with
      | error e =>
        constructor
        · intro _; simp [Pg.storeWebsiteData, h1, h2, hloop]
        · intro websiteId hok
          simp [Pg.storeWebsiteData, h1, h2, hloop] at hok
      | ok w =>
        constructor
        · intro herr
          simp [Pg.storeWebsiteData, h1, h2, hloop] at herr
        · intro websiteId hok
          simp only [Pg.storeWebsiteData, h1, h2, hloop, if_neg,
            Bool.not_eq_true] at hok ⊢
          have hid : (Pg.upsertWebsiteQuery db url title description).2 =
              websiteId := by simpa using hok
          have hins := Pg.insertChunksLoop_ok_chunks chunks
            (Pg.deleteChunksQuery
              (Pg.upsertWebsiteQuery db url title description).1
              (Pg.upsertWebsiteQuery db url title description).2)
            (Pg.upsertWebsiteQuery db url title description).2 0 fails w hloop
          have hchunks :
              (Pg.upsertWebsiteQuery db url title description).1.chunks =
                db.chunks := by
            unfold Pg.upsertWebsiteQuery
            cases db.websites.find? (fun x => x.url == url) <;> simp
          rw [hid] at hins
          simpa [Pg.deleteChunksQuery, hchunks, hid] using hins

/-- Witness for C10: a store whose chunk delete fails leaves the database
exactly as it was, and a fully successful store commits the new chunk
row. -/
theorem C10_pg_store_atomic_witness :
    ((Pg.storeWebsiteData ⟨[], [], 0⟩ "https://a.com" "Title" "Desc"
        [⟨"chunk", [1]⟩] (fun s => s == Pg.StoreStep.deleteChunks)).2 =
      ⟨[], [], 0⟩)
    ∧ ((Pg.storeWebsiteData ⟨[], [], 0⟩ "https://a.com" "Title" "Desc"
        [⟨"chunk", [1]⟩] Pg.noFailure).2.chunks = [⟨0, "chunk", [1]⟩]) := by
  constructor
  · exact (C10_pg_store_atomic ⟨[], [], 0⟩ "https://a.com" "Title" "Desc"
      [⟨"chunk", [1]⟩] (fun s => s == Pg.StoreStep.deleteChunks)).1 (by decide)
  · have h := (C10_pg_store_atomic ⟨[], [], 0⟩ "https://a.com" "Title" "Desc"
      [⟨"chunk", [1]⟩] Pg.noFailure).2 0 (by decide)
    simpa using h

/-! ## C8 : write-time validation of the embedding length -/

/-- C8 (counterexample): the store path performs no length-768 check - a
chunk whose embedding has three entries is stored as is by
`storeWebsiteData` of the JSON backend (database-simple.ts; its
`embedding_json` text column enforces nothing), and the write succeeds. -/
theorem C8_wrong_length_embedding_stored :
    (Pg.storeWebsiteData ⟨[], [], 0⟩ "https://a.com" "Title" "Desc"
      [⟨"chunk", [1, 2, 3]⟩] Pg.noFailure).1 = .ok 0
    ∧ ((Pg.storeWebsiteData ⟨[], [], 0⟩ "https://a.com" "Title" "Desc"
      [⟨"chunk", [1, 2, 3]⟩] Pg.noFailure).2.chunks.map
        (fun c => c.embedding.length)) = [3]
    ∧ (3 : Nat) ≠ EMBEDDING_DIMENSION := by
  refine ⟨by decide, by decide, by decide⟩

/-- C8 (amended): the only write-time embedding validation in the
application code is the Chroma store, and it rejects exactly the chunks
whose embedding array is empty; every non-empty embedding - of whatever
length - is stored unchanged.  (The Milvus `storeWebsiteChunks` and the
Postgres stores perform no validation at all; dimension enforcement is
left to backend schemas where one exists.) -/
theorem C8_only_empty_embeddings_rejected (collection : List Chroma.Entry)
    (url title description : String) (chunks : List ChunkIn) :
    (Chroma.storeWebsiteData collection url title description chunks = .error ()
      ↔ chunks.any (fun c => c.embedding.isEmpty) = true)
    ∧ ((∀ c ∈ chunks, c.embedding ≠ []) →
        ∃ out, Chroma.storeWebsiteData collection url title description chunks
            = .ok out
          ∧ out.map (fun e => e.embedding) =
              collection.map (fun e => e.embedding) ++
                chunks.map (fun c => c.embedding)) := by
  by_cases h : chunks.any (fun c => c.embedding.isEmpty) = true
  · constructor
    · simp [Chroma.storeWebsiteData, h]
    · intro hall
      obtain ⟨c, hc, he⟩ := List.any_eq_true.mp h
      exact absurd (List.isEmpty_iff.mp he) (hall c hc)
  · constructor
    · simp [Chroma.storeWebsiteData, h]
    · intro _
      refine ⟨collection ++ chunks.enum.map (fun p =>
        ({ url := url
           title := if title = "" then "Untitled" else title
           description := if description = "" then "No description"
             else description
           content := p.2.content
           embedding := p.2.embedding
           chunkIndex := p.1 } : Chroma.Entry)), ?_, ?_⟩
      · simp [Chroma.storeWebsiteData, h]
      rw [List.map_append]
      congr 1
      rw [List.map_map]
      have h2 : ((fun e => Chroma.Entry.embedding e) ∘ (fun p =>
          ({ url := url
             title := if title = "" then "Untitled" else title
             description := if description = "" then "No description"
               else description
             content := p.2.content
             embedding := p.2.embedding
             chunkIndex := p.1 } : Chroma.Entry))) =
          ((fun c => ChunkIn.embedding c) ∘ (Prod.snd : Nat × ChunkIn → ChunkIn)) := by
        funext p
        rfl
      rw [h2, ← List.map_map, List.enum_map_snd]

/-- Witness for C8: a two-entry embedding (wrong length, but non-empty)
passes the Chroma validation and is stored as given. -/
theorem C8_only_empty_embeddings_rejected_witness :
    ∃ out, Chroma.storeWebsiteData [] "https://a.com" "Title" "Desc"
        [⟨"chunk", [5, 6]⟩] = .ok out
      ∧ out.map (fun e => e.embedding) = [[5, 6]] := by
  have h := (C8_only_empty_embeddings_rejected [] "https://a.com" "Title" "Desc"
    [⟨"chunk", [5, 6]⟩]).2 (by decide)
  simpa using h

/-! ## C2 : threshold relaxation -/

/-- C2 (counterexample): the `searchSimilarContent` of database-simple.ts
applies the similarity threshold as a hard filter with no relaxation step:
over a non-empty store whose single row is orthogonal to the query (cosine
similarity 0, below threshold 0.7) it returns zero results, not between 1
and 3. -/
theorem C2_simple_backend_returns_empty :
    SimpleDb.searchSimilarContent
      [⟨"only document", [1, 0], "https://a.com", "A"⟩] [0, 1] 5 (7/10) = []
    ∧ ([⟨"only document", [1, 0], "https://a.com", "A"⟩] : List SimpleDb.Row)
        ≠ [] := by
  constructor
  · have hcos : SimpleDb.cosineSimilarity [0, 1] [1, 0] = 0 := by
      unfold SimpleDb.cosineSimilarity
      norm_num
    unfold SimpleDb.searchSimilarContent
    simp [hcos, SimpleDb.sortBySim]
    norm_num
  · simp

/-- Helper: a Milvus search with a valid query embedding never throws. -/
theorem Milvus.searchSimilarContent_ok (queryEmbedding : List ℚ) (limit : Nat)
    (similarityThreshold : ℚ) (hits : List Milvus.Hit)
    (hlen : queryEmbedding.length = EMBEDDING_DIMENSION) :
    ∃ out, Milvus.searchSimilarContent queryEmbedding limit similarityThreshold
        hits = .ok out := by
  simp only [Milvus.searchSimilarContent]
  rw [if_neg (by simp [hlen])]
  split
  · exact ⟨_, rfl⟩
  · exact ⟨_, rfl⟩

/-- C2 (amended): the Milvus backend (and the current Chroma backend,
which has the identical fallback) implements the relaxation policy: when
the index returns hits but none clears the threshold, the call still
returns the top `min(3, available)` results, so between 1 and 3 of them.
The Postgres-based backends apply the threshold as a hard filter and can
return an empty result from a non-empty index. -/
theorem C2_milvus_relaxation (queryEmbedding : List ℚ) (limit : Nat)
    (similarityThreshold : ℚ) (hits : List Milvus.Hit)
    (hlen : queryEmbedding.length = EMBEDDING_DIMENSION)
    (hne : hits.take limit ≠ [])
    (hbelow : ∀ h ∈ hits.take limit, 1 - h.distance < similarityThreshold) :
    ∃ out,
      Milvus.searchSimilarContent queryEmbedding limit similarityThreshold hits
        = .ok out
      ∧ out.length = min 3 (hits.take limit).length
      ∧ 1 ≤ out.length ∧ out.length ≤ 3 := by
  simp only [Milvus.searchSimilarContent]
  rw [if_neg (by simp [hlen])]
  rw [if_neg (by simpa [List.isEmpty_iff] using hne)]
  have hfilter : ((hits.take limit).map (fun h =>
      ({ content := h.content, url := h.url, title := h.title
         similarity := 1 - h.distance } : Milvus.ResultItem))).filter
        (fun item => similarityThreshold ≤ item.similarity) = [] := by
    rw [List.filter_eq_nil_iff]
    intro a ha
    obtain ⟨h, hh, rfl⟩ := List.mem_map.mp ha
    simpa using not_le.mpr (hbelow h hh)
  rw [hfilter]
  have hmaplen : ((hits.take limit).map (fun h =>
      ({ content := h.content, url := h.url, title := h.title
         similarity := 1 - h.distance } : Milvus.ResultItem))).length =
        (hits.take limit).length := List.length_map _ _
  have hpos : 0 < (hits.take limit).length := List.length_pos.mpr hne
  rw [if_pos (by
    simp only [List.isEmpty_iff, List.map_eq_nil_iff, List.isEmpty_nil,
      Bool.true_and, Bool.not_eq_true', decide_eq_false_iff_not]
    simpa [List.take_eq_nil_iff, not_or] using hne)]
  refine ⟨_, rfl, ?_, ?_, ?_⟩
  · rw [List.length_take, hmaplen]
    omega
  · rw [List.length_take, hmaplen]
    omega
  · rw [List.length_take, hmaplen]
    omega

/-- Witness for C2: one hit at distance 2 (similarity -1, below the 0.5
threshold) is still returned. -/
theorem C2_milvus_relaxation_witness :
    ∃ out,
      Milvus.searchSimilarContent (List.replicate 768 0) 5 (1/2)
        [⟨1, "https://a.com", "A", "text", 0, none, 2⟩] = .ok out
      ∧ out.length = min 3
          (([⟨1, "https://a.com", "A", "text", 0, none, 2⟩] :
            List Milvus.Hit).take 5).length
      ∧ 1 ≤ out.length ∧ out.length ≤ 3 :=
  C2_milvus_relaxation (List.replicate 768 0) 5 (1/2)
    [⟨1, "https://a.com", "A", "text", 0, none, 2⟩]
    (by rw [List.length_replicate]; rfl) (by simp) (by norm_num)

/-! ## C3 : conversational endpoints under internal search-path errors -/

/-- C3 (counterexample): the chat endpoint is a conversational endpoint,
yet an embedding failure reaches its outer catch, which responds with HTTP
status 500 and an error body - a propagated failure, not a well-formed
success with an empty result set. -/
theorem C3_chat_embedding_failure_is_500 :
    (Chat.post (some "what does this site offer") (.error ()) (.ok [])
      (.ok "answer")).status = 500
    ∧ (Chat.post (some "what does this site offer") (.error ()) (.ok [])
      (.ok "answer")).status ≠ 200 := by
  constructor
  · rfl
  · decide

/-- C3 (amended): the Vapi knowledge-base endpoint does satisfy the rule -
every modelled path answers 200 with a documents array, and an embedding
or search failure yields the empty document list; the chat endpoint
returns the generic low-confidence message only when the search succeeds
with zero matches, and answers 500 whenever the embedding or the search
call fails. -/
theorem C3_kb_degrades_chat_propagates :
    (∀ inp : KbSearch.Input, (KbSearch.post inp).1.status = 200)
    ∧ (∀ inp : KbSearch.Input,
        inp.embedOutcome = .error () ∨ inp.serverOutcome = .error () →
        (KbSearch.post inp).1.documents = [])
    ∧ (∀ (m : String) (emb : Except Unit (List ℚ))
        (sr : Except Unit (List Chat.SearchItem)) (llm : Except Unit String),
        m ≠ "" → (emb = .error () ∨ sr = .error ()) →
        (Chat.post (some m) emb sr llm).status = 500)
    ∧ (∀ (m : String) (v : List ℚ) (llm : Except Unit String), m ≠ "" →
        Chat.post (some m) (.ok v) (.ok []) llm =
          ⟨200, .answer Chat.noInfoMessage [] []⟩) := by
  refine ⟨?_, ?_, ?_, ?_⟩
  · intro inp
    simp only [KbSearch.post]
    repeat first
    | rfl
    | split
  · intro inp h
    simp only [KbSearch.post]
    split
    · rfl
    · split
      · rfl
      · rcases h with h | h
        · simp [h]
        · split
          · rfl
          · simp [h]
  · intro m emb sr llm hm h
    rcases h with h | h
    · subst h
      simp [Chat.post, hm]
    · subst h
      cases emb with
      | error e => simp [Chat.post, hm]
      | ok v => simp [Chat.post, hm]
  · intro m v llm hm
    simp [Chat.post, hm]

/-- Witness for C3: concrete instances of all four parts. -/
theorem C3_kb_degrades_chat_propagates_witness :
    ((KbSearch.post ⟨"hello there", ⟨true, 1⟩, .error (), .ok []⟩).1.status = 200)
    ∧ ((KbSearch.post ⟨"hello there", ⟨true, 1⟩, .error (), .ok []⟩).1.documents
        = [])
    ∧ ((Chat.post (some "hi") (.ok [1]) (.error ()) (.ok "a")).status = 500)
    ∧ (Chat.post (some "hi") (.ok [1]) (.ok []) (.ok "a") =
        ⟨200, .answer Chat.noInfoMessage [] []⟩) :=
  ⟨C3_kb_degrades_chat_propagates.1 ⟨"hello there", ⟨true, 1⟩, .error (), .ok []⟩,
   C3_kb_degrades_chat_propagates.2.1 ⟨"hello there", ⟨true, 1⟩, .error (), .ok []⟩
     (Or.inl rfl),
   C3_kb_degrades_chat_propagates.2.2.1 "hi" (.ok [1]) (.error ()) (.ok "a")
     (by decide) (Or.inr rfl),
   C3_kb_degrades_chat_propagates.2.2.2 "hi" [1] (.ok "a") (by decide)⟩

/-! ## C9 : deduplication tie-break of listSources -/

/-- Fold invariant of the Milvus `getAllWebsites`: the entry found for a
non-empty url is the accumulator entry if one exists, else the entry built
from the **first** queried row carrying the url. -/
theorem Milvus.getAllWebsites_keeps_first (rows : List Milvus.QueryRow)
    (acc : List Milvus.WebsiteInfo) (u : String) (hu : u ≠ "") :
    (rows.foldl Milvus.websitesStep acc).find? (fun e => e.url == u) =
      ((acc.find? (fun e => e.url == u)).or
        ((rows.find? (fun r => r.url == u)).map Milvus.mkWebsiteInfo)) := by
  induction rows generalizing acc with
  | nil => simp
  | cons r rest ih =>
    rw [List.foldl_cons, ih]
    by_cases hru : (r.url == u) = true
    · have hrequ : r.url = u := by simpa using hru
      have hrne : r.url ≠ "" := by rw [hrequ]; exact hu
      simp only [List.find?_cons, hru]
      by_cases hin : (acc.any (fun e => e.url == r.url)) = true
      · have hstep : Milvus.websitesStep acc r = acc := by
          unfold Milvus.websitesStep
          rw [if_neg (by simp [hin])]
        rw [hstep]
        have hsome : (acc.find? (fun e => e.url == u)).isSome := by
          rw [List.find?_isSome]
          obtain ⟨e, he, hp⟩ := List.any_eq_true.mp hin
          exact ⟨e, he, by rwa [hrequ] at hp⟩
        obtain ⟨e, he⟩ := Option.isSome_iff_exists.mp hsome
        rw [he]
        rfl
      · have hstep : Milvus.websitesStep acc r = acc ++ [Milvus.mkWebsiteInfo r] := by
          unfold Milvus.websitesStep
          rw [if_pos (by simp [hin, hrne])]
        rw [hstep, List.find?_append]
        have hnone : acc.find? (fun e => e.url == u) = none := by
          rw [List.find?_eq_none]
          intro e he hp
          exact hin (List.any_eq_true.mpr ⟨e, he, by rw [hrequ]; exact hp⟩)
        rw [hnone]
        simp [Milvus.mkWebsiteInfo, hru]
    · have hru0 : (r.url == u) = false := Bool.not_eq_true _ |>.mp hru
      simp only [List.find?_cons, hru0]
      have hstep : (Milvus.websitesStep acc r).find? (fun e => e.url == u) =
          acc.find? (fun e => e.url == u) := by
        unfold Milvus.websitesStep
        split
        · rw [List.find?_append]
          simp [Milvus.mkWebsiteInfo, hru]
        · rfl
      rw [hstep]

/-- Fold invariant of the Chroma `getAllWebsites`: the entry found for a
non-empty url is built from the **last** metadata record carrying the url,
falling back to the accumulator entry. -/
theorem Chroma.getAllWebsites_keeps_last (metas : List Chroma.Meta)
    (acc : List Chroma.WebsiteInfo) (u : String) (hu : u ≠ "") :
    (metas.foldl Chroma.websitesStep acc).find? (fun e => e.url == u) =
      (((metas.reverse.find? (fun m => m.url == u)).map Chroma.mkWebsiteInfo).or
        (acc.find? (fun e => e.url == u))) := by
  induction metas generalizing acc with
  | nil => simp
  | cons m rest ih =>
    rw [List.foldl_cons, ih, List.reverse_cons, List.find?_append]
    by_cases hmu : (m.url == u) = true
    · have hmequ : m.url = u := by simpa using hmu
      have hmne : m.url ≠ "" := by rw [hmequ]; exact hu
      have hstep : (Chroma.websitesStep acc m).find? (fun e => e.url == u) =
          some (Chroma.mkWebsiteInfo m) := by
        unfold Chroma.websitesStep
        rw [if_pos (by simp [hmne])]
        by_cases hin : (acc.any (fun e => e.url == m.url)) = true
        · rw [if_pos hin, List.find?_map]
          have hpf : ((fun e => e.url == u) ∘ (fun e =>
              if e.url == m.url then Chroma.mkWebsiteInfo m else e)) =
              (fun (e : Chroma.WebsiteInfo) => e.url == u) := by
            funext e
            by_cases he : (e.url == m.url) = true
            · have : e.url = m.url := by simpa using he
              simp [Function.comp, he, Chroma.mkWebsiteInfo, hmu, this]
            · simp [Function.comp, he]
          rw [hpf]
          have hsome : (acc.find? (fun e => e.url == u)).isSome := by
            rw [List.find?_isSome]
            obtain ⟨e, he, hp⟩ := List.any_eq_true.mp hin
            exact ⟨e, he, by rwa [hmequ] at hp⟩
          obtain ⟨e0, he0⟩ := Option.isSome_iff_exists.mp hsome
          have hpe0 : (e0.url == u) = true := by
            have := List.find?_some he0
            simpa using this
          have he0u : (e0.url == m.url) = true := by
            rw [hmequ]; exact hpe0
          rw [he0, Option.map_some']
          simp [he0u]
        · rw [if_neg hin, List.find?_append]
          have hnone : acc.find? (fun e => e.url == u) = none := by
            rw [List.find?_eq_none]
            intro e he hp
            exact hin (List.any_eq_true.mpr ⟨e, he, by rw [hmequ]; exact hp⟩)
          rw [hnone]
          simp [Chroma.mkWebsiteInfo, hmu]
      rw [hstep]
      cases hrf : rest.reverse.find? (fun m => m.url == u) with
      | none => simp [List.find?_cons, hmu]
      | some m' => simp [List.find?_cons, hmu]
    · have hmu0 : (m.url == u) = false := Bool.not_eq_true _ |>.mp hmu
      have hstep : (Chroma.websitesStep acc m).find? (fun e => e.url == u) =
          acc.find? (fun e => e.url == u) := by
        unfold Chroma.websitesStep
        split
        · split
          · rw [List.find?_map]
            have hpf : ((fun e => e.url == u) ∘ (fun e =>
                if e.url == m.url then Chroma.mkWebsiteInfo m else e)) =
                (fun (e : Chroma.WebsiteInfo) => e.url == u) := by
              funext e
              by_cases he : (e.url == m.url) = true
              · have heq : e.url = m.url := by simpa using he
                simp [Function.comp, he, Chroma.mkWebsiteInfo, hmu0, heq]
              · simp [Function.comp, he]
            rw [hpf]
            cases he0 : acc.find? (fun e => e.url == u) with
            | none => simp
            | some e0 =>
              have hpe0 : (e0.url == u) = true := by
                have := List.find?_some he0
                simpa using this
              have : (e0.url == m.url) = false := by
                have heq : e0.url = u := by simpa using hpe0
                rw [heq]
                cases hb : (u == m.url)
                · rfl
                · exact absurd (by simpa using hb) (fun h => (by simp [h] at hmu0 : False))
              simp only [Option.map_some']
              have hne : e0.url ≠ m.url := by simpa using this
              simp [hne]
          · rw [List.find?_append]
            simp [Chroma.mkWebsiteInfo, hmu0]
        · rfl
      rw [hstep]
      simp [List.find?_cons, hmu0]

/-- The website entry the Milvus backend answers for a url. -/
theorem C9_counterexample_milvus_keeps_first :
    Milvus.getAllWebsites
      [⟨"https://a.com", "Old Title", 100⟩, ⟨"https://a.com", "New Title", 200⟩]
      = [⟨"https://a.com", "Old Title", 100⟩]
    ∧ ("Old Title" : String) ≠ "New Title" := by
  constructor
  · rfl
  · decide

/-- C9 (amended): both backends deduplicate sources by url, but the
tie-break differs: the Milvus `getAllWebsites` keeps the **first-seen**
metadata for each url, while the Chroma `getAllWebsites` keeps the
most-recently-seen metadata (the last record wins). -/
theorem C9_dedup_tiebreak (rows : List Milvus.QueryRow)
    (metas : List Chroma.Meta) (u : String) (hu : u ≠ "") :
    ((Milvus.getAllWebsites rows).find? (fun e => e.url == u) =
      (rows.find? (fun r => r.url == u)).map Milvus.mkWebsiteInfo)
    ∧ ((Chroma.getAllWebsites metas).find? (fun e => e.url == u) =
      (metas.reverse.find? (fun m => m.url == u)).map Chroma.mkWebsiteInfo) := by
  constructor
  · have h := Milvus.getAllWebsites_keeps_first rows [] u hu
    simpa [Milvus.getAllWebsites] using h
  · have h := Chroma.getAllWebsites_keeps_last metas [] u hu
    simpa [Chroma.getAllWebsites] using h

/-- Witness for C9 at concrete duplicated urls. -/
theorem C9_dedup_tiebreak_witness :
    ((Milvus.getAllWebsites
        [⟨"https://a.com", "T1", 1⟩, ⟨"https://a.com", "T2", 2⟩]).find?
          (fun e => e.url == "https://a.com") =
      (([⟨"https://a.com", "T1", 1⟩, ⟨"https://a.com", "T2", 2⟩] :
          List Milvus.QueryRow).find?
        (fun r => r.url == "https://a.com")).map Milvus.mkWebsiteInfo)
    ∧ ((Chroma.getAllWebsites
        [⟨"https://a.com", "T1", "d1", 1⟩, ⟨"https://a.com", "T2", "d2", 2⟩]).find?
          (fun e => e.url == "https://a.com") =
      (([⟨"https://a.com", "T1", "d1", 1⟩, ⟨"https://a.com", "T2", "d2", 2⟩] :
          List Chroma.Meta).reverse.find?
        (fun m => m.url == "https://a.com")).map Chroma.mkWebsiteInfo) :=
  C9_dedup_tiebreak
    [⟨"https://a.com", "T1", 1⟩, ⟨"https://a.com", "T2", 2⟩]
    [⟨"https://a.com", "T1", "d1", 1⟩, ⟨"https://a.com", "T2", "d2", 2⟩]
    "https://a.com" (by decide)

/-! ## C7 : no embedding call for short queries or an empty index -/

/-- C7: the embedding provider is never called when the cleaned query is
shorter than two characters, or when the health check reports no data -
both checks short-circuit the request before the embedding stage. -/
theorem C7_no_embed_when_short_or_empty (inp : KbSearch.Input)
    (h : (String.mk (trimChars (cleanQuery inp.query).data)).length < 2
       ∨ inp.health.hasData = false) :
    KbSearch.Stage.embed ∉ (KbSearch.post inp).2 := by
  simp only [KbSearch.post]
  rcases h with h | h
  · rw [if_pos h]
    decide
  · by_cases h2 : (String.mk (trimChars (cleanQuery inp.query).data)).length < 2
    · rw [if_pos h2]
      decide
    · rw [if_neg h2, if_pos (by simp [h])]
      decide

/-- Witness for C7: the one-letter query is rejected before embedding. -/
theorem C7_no_embed_witness :
    KbSearch.Stage.embed ∉
      (KbSearch.post ⟨"a", ⟨true, 1⟩, .ok [], .ok []⟩).2 :=
  C7_no_embed_when_short_or_empty ⟨"a", ⟨true, 1⟩, .ok [], .ok []⟩
    (Or.inl (by decide))

/-! ## C6 : orchestration stage sequence -/

set_option maxRecDepth 4000 in
/-- C6 (counterexample): the route has no greeting handling whatsoever - a
greeting query reaches the embedding and search stages like any other
query (retrieval is not bypassed and no canned response exists), and no
greeting-check stage ever appears in the trace. -/
theorem C6_greeting_reaches_retrieval :
    KbSearch.Stage.search ∈
      (KbSearch.post ⟨"what\x27s up", ⟨true, 5⟩, .ok (List.replicate 768 0),
        .ok []⟩).2
    ∧ KbSearch.Stage.greetingCheck ∉
      (KbSearch.post ⟨"what\x27s up", ⟨true, 5⟩, .ok (List.replicate 768 0),
        .ok []⟩).2 := by
  constructor
  · decide
  · decide

/-- C6 (amended): for a request that passes every check (cleaned query of
at least two characters, non-empty index, successful embedding of the
right dimension, reachable search server), the stage sequence is RECEIVED,
NORMALIZE, STRATEGY-SELECTION, TOO-SHORT-CHECK, INDEX-EMPTY-CHECK, EMBED,
SEARCH, RANK/TRIM, ENRICH, RESPOND.  There is no greeting check, and
normalization precedes the index-empty check (not the other way round). -/
theorem C6_actual_stage_sequence (inp : KbSearch.Input) (v : List ℚ)
    (hits : List Milvus.Hit)
    (hshort : ¬ (String.mk (trimChars (cleanQuery inp.query).data)).length < 2)
    (hdata : inp.health.hasData = true)
    (hemb : inp.embedOutcome = .ok v) (hlen : v.length = EMBEDDING_DIMENSION)
    (hsrv : inp.serverOutcome = .ok hits) :
    (KbSearch.post inp).2 =
      [.received, .normalize, .strategy, .tooShortCheck, .indexEmptyCheck,
       .embed, .search, .rankTrim, .enrich, .respond]
    ∧ KbSearch.Stage.greetingCheck ∉ (KbSearch.post inp).2 := by
  obtain ⟨out, hout⟩ := Milvus.searchSimilarContent_ok v
    (if hasName (cleanQuery inp.query) then 15 else 10) (1/5) hits hlen
  have htrace : (KbSearch.post inp).2 =
      [.received, .normalize, .strategy, .tooShortCheck, .indexEmptyCheck,
       .embed, .search, .rankTrim, .enrich, .respond] := by
    simp only [KbSearch.post]
    rw [if_neg hshort, hdata, hemb, hsrv]
    simp only [Bool.not_true, Bool.false_eq_true, if_false, hout]
    rfl
  refine ⟨htrace, ?_⟩
  rw [htrace]
  decide

/-- Witness for C6: a concrete request running the full pipeline. -/
theorem C6_actual_stage_sequence_witness :
    (KbSearch.post ⟨"tell me something about the pricing options", ⟨true, 3⟩,
      .ok (List.replicate 768 0), .ok []⟩).2 =
      [.received, .normalize, .strategy, .tooShortCheck, .indexEmptyCheck,
       .embed, .search, .rankTrim, .enrich, .respond]
    ∧ KbSearch.Stage.greetingCheck ∉
      (KbSearch.post ⟨"tell me something about the pricing options", ⟨true, 3⟩,
        .ok (List.replicate 768 0), .ok []⟩).2 :=
  C6_actual_stage_sequence
    ⟨"tell me something about the pricing options", ⟨true, 3⟩,
      .ok (List.replicate 768 0), .ok []⟩
    (List.replicate 768 0) [] (by decide) rfl rfl
    (by rw [List.length_replicate]; rfl) rfl

/-! ## C5 : query classification and search-query selection -/

/-- The six whitespace characters of the model, by cases. -/
theorem isSpaceChar_cases {c : Char} (h : isSpaceChar c = true) :
    c = ' ' ∨ c = '\t' ∨ c = '\n' ∨ c = '\r' ∨ c = '\x0b' ∨ c = '\x0c' := by
  simp [isSpaceChar] at h
  tauto

/-- A whitespace character is not a lowercase letter. -/
theorem isSpaceChar_not_lower {c : Char} (h : isSpaceChar c = true) :
    isLowerChar c = false := by
  rcases isSpaceChar_cases h with h | h | h | h | h | h <;> subst h <;> decide

/-- An uppercase letter is not whitespace. -/
theorem isUpperChar_not_space {c : Char} (h : isUpperChar c = true) :
    isSpaceChar c = false := by
  cases hs : isSpaceChar c
  · rfl
  · rcases isSpaceChar_cases hs with h' | h' | h' | h' | h' | h' <;> subst h' <;>
      exact absurd h (by decide)

/-- `takeWhile` walks through a prefix every element of which satisfies the
predicate. -/
theorem takeWhile_append_all {p : Char → Bool} {xs : List Char} (ys : List Char)
    (h : ∀ x ∈ xs, p x = true) :
    (xs ++ ys).takeWhile p = xs ++ ys.takeWhile p := by
  induction xs with
  | nil => simp
  | cons a l ih =>
    simp only [List.cons_append, List.takeWhile_cons, h a (by simp)]
    simp [ih (fun x hx => h x (by simp [hx]))]

/-- `dropWhile` drops a prefix every element of which satisfies the
predicate. -/
theorem dropWhile_append_all {p : Char → Bool} {xs : List Char} (ys : List Char)
    (h : ∀ x ∈ xs, p x = true) :
    (xs ++ ys).dropWhile p = ys.dropWhile p := by
  induction xs with
  | nil => simp
  | cons a l ih =>
    simp only [List.cons_append, List.dropWhile_cons, h a (by simp)]
    simp [ih (fun x hx => h x (by simp [hx]))]

/-- When `takeWhile` takes nothing, `dropWhile` drops nothing. -/
theorem dropWhile_eq_self_of_takeWhile_eq_nil {p : Char → Bool} {l : List Char}
    (h : l.takeWhile p = []) : l.dropWhile p = l := by
  cases l with
  | nil => rfl
  | cons a t =>
    simp only [List.takeWhile_cons] at h
    cases hp : p a
    · simp [List.dropWhile_cons, hp]
    · rw [hp] at h
      exact absurd h (by simp)

/-- Soundness of the TitleCase-word matcher: a successful match
decomposes the input and yields a `TitleTok`. -/
theorem titleWordAt_sound {s w rest : List Char}
    (h : titleWordAt s = some (w, rest)) : s = w ++ rest ∧ TitleTok w := by
  cases s with
  | nil => exact absurd h (by simp [titleWordAt])
  | cons c rest0 =>
    simp only [titleWordAt] at h
    by_cases hu : isUpperChar c = true
    · rw [if_pos hu] at h
      by_cases he : (rest0.takeWhile isLowerChar).isEmpty = true
      · rw [if_pos he] at h
        exact absurd h (by simp)
      · rw [if_neg he] at h
        simp only [Option.some.injEq, Prod.mk.injEq] at h
        obtain ⟨hw, hrest⟩ := h
        subst hw
        subst hrest
        refine ⟨by simp [List.takeWhile_append_dropWhile], c,
          rest0.takeWhile isLowerChar, rfl, hu, ?_, ?_⟩
        · simpa [List.isEmpty_iff] using he
        · intro d hd
          exact List.mem_takeWhile_imp hd
    · rw [if_neg hu] at h
      exact absurd h (by simp)

/-- Completeness of the TitleCase-word matcher at an exact decomposition:
when nothing lowercase follows the word, the matcher returns exactly it. -/
theorem titleWordAt_exact {w t : List Char} (hw : TitleTok w)
    (ht : t.takeWhile isLowerChar = []) :
    titleWordAt (w ++ t) = some (w, t) := by
  obtain ⟨c, lo, rfl, hu, hne, hall⟩ := hw
  simp only [List.cons_append, titleWordAt]
  rw [if_pos hu, takeWhile_append_all t hall, ht, List.append_nil,
    dropWhile_append_all t hall, dropWhile_eq_self_of_takeWhile_eq_nil ht]
  rw [if_neg (by simpa [List.isEmpty_iff] using hne)]

/-- The matcher succeeds on any extension of a TitleCase word. -/
theorem titleWordAt_isSome_append {w suf : List Char} (hw : TitleTok w) :
    (titleWordAt (w ++ suf)).isSome = true := by
  obtain ⟨c, lo, rfl, hu, hne, hall⟩ := hw
  simp only [List.cons_append, titleWordAt]
  rw [if_pos hu, takeWhile_append_all suf hall]
  rw [if_neg (by simp [List.isEmpty_iff, hne])]
  rfl

/-- Soundness of the pair matcher: success at a position decomposes the
input into TitleCase word, whitespace run, TitleCase word, remainder. -/
theorem titlePairAt_sound {s : List Char} (h : titlePairAt s = true) :
    ∃ w1 g w2 suf, s = w1 ++ (g ++ (w2 ++ suf))
      ∧ TitleTok w1 ∧ WsRun g ∧ TitleTok w2 := by
  simp only [titlePairAt] at h
  cases htw : titleWordAt s with
  | none => rw [htw] at h; exact absurd h (by simp)
  | some pr =>
    obtain ⟨w1, rest⟩ := pr
    rw [htw] at h
    have h2 : (if (rest.takeWhile isSpaceChar).isEmpty = true then false
        else (titleWordAt (rest.dropWhile isSpaceChar)).isSome) = true := h
    obtain ⟨hs, hw1⟩ := titleWordAt_sound htw
    by_cases hws : (rest.takeWhile isSpaceChar).isEmpty = true
    · rw [if_pos hws] at h2
      exact absurd h2 (by simp)
    · rw [if_neg hws] at h2
      cases htw2 : titleWordAt (rest.dropWhile isSpaceChar) with
      | none => rw [htw2] at h2; exact absurd h2 (by simp)
      | some pr2 =>
        obtain ⟨w2, rest2⟩ := pr2
        obtain ⟨hs2, hw2⟩ := titleWordAt_sound htw2
        refine ⟨w1, rest.takeWhile isSpaceChar, w2, rest2, ?_, hw1,
          ⟨by simpa [List.isEmpty_iff] using hws,
           fun d hd => List.mem_takeWhile_imp hd⟩, hw2⟩
        rw [hs, ← hs2, List.takeWhile_append_dropWhile]

/-- Completeness of the pair matcher: it succeeds at the start of any
TitleCase-whitespace-TitleCase decomposition. -/
theorem titlePairAt_complete {w1 g w2 suf : List Char} (hw1 : TitleTok w1)
    (hg : WsRun g) (hw2 : TitleTok w2) :
    titlePairAt (w1 ++ (g ++ (w2 ++ suf))) = true := by
  obtain ⟨hgne, hgall⟩ := hg
  have hgtw : (g ++ (w2 ++ suf)).takeWhile isLowerChar = [] := by
    cases g with
    | nil => exact absurd rfl hgne
    | cons d g' =>
      have hd : isSpaceChar d = true := hgall d (by simp)
      simp [List.takeWhile_cons, isSpaceChar_not_lower hd]
  have hw2tw : (w2 ++ suf).takeWhile isSpaceChar = [] := by
    obtain ⟨c2, lo2, hw2eq, hu2, _, _⟩ := hw2
    rw [hw2eq]
    simp [List.takeWhile_cons, isUpperChar_not_space hu2]
  simp only [titlePairAt]
  rw [titleWordAt_exact hw1 hgtw]
  show (if ((g ++ (w2 ++ suf)).takeWhile isSpaceChar).isEmpty = true then false
    else (titleWordAt ((g ++ (w2 ++ suf)).dropWhile isSpaceChar)).isSome) = true
  rw [takeWhile_append_all (w2 ++ suf) hgall, hw2tw, List.append_nil]
  rw [if_neg (by simpa [List.isEmpty_iff] using hgne)]
  rw [dropWhile_append_all (w2 ++ suf) hgall,
    dropWhile_eq_self_of_takeWhile_eq_nil hw2tw]
  exact titleWordAt_isSome_append hw2

/-- The scanner of `hasName` agrees with the declarative regex language:
a match exists somewhere in the text if and only if the text decomposes
around a TitleCase pair. -/
theorem hasNameScan_iff (s : List Char) : hasNameScan s = true ↔ hasNamePred s := by
  induction s with
  | nil =>
    constructor
    · intro h
      exact absurd h (by simp [hasNameScan])
    · rintro ⟨pre, w1, g, w2, suf, heq, hw1, hg, hw2⟩
      obtain ⟨c, lo, hw1eq, _, _, _⟩ := hw1
      rw [hw1eq] at heq
      simp at heq
  | cons c rest ih =>
    simp only [hasNameScan, Bool.or_eq_true]
    constructor
    · rintro (h | h)
      · obtain ⟨w1, g, w2, suf, heq, hw1, hg, hw2⟩ := titlePairAt_sound h
        exact ⟨[], w1, g, w2, suf, by simpa [List.append_assoc] using heq,
          hw1, hg, hw2⟩
      · obtain ⟨pre, w1, g, w2, suf, heq, hw1, hg, hw2⟩ := ih.mp h
        exact ⟨c :: pre, w1, g, w2, suf, by simp [heq, List.append_assoc],
          hw1, hg, hw2⟩
    · rintro ⟨pre, w1, g, w2, suf, heq, hw1, hg, hw2⟩
      cases pre with
      | nil =>
        left
        have heq2 : c :: rest = w1 ++ (g ++ (w2 ++ suf)) := by
          simpa [List.append_assoc] using heq
        rw [heq2]
        exact titlePairAt_complete hw1 hg hw2
      | cons a pre2 =>
        right
        refine ih.mpr ⟨pre2, w1, g, w2, suf, ?_, hw1, hg, hw2⟩
        have heq2 : c :: rest = a :: (pre2 ++ (w1 ++ (g ++ (w2 ++ suf)))) := by
          simpa [List.append_assoc] using heq
        injection heq2 with h1 h2
        simpa [List.append_assoc] using h2

/-- C5 (counterexample): `hasName` is not flagged "exactly when two or
more consecutive capitalized tokens appear".  The cleaned query
`"xJohn Smith"` contains a single capitalized token, yet the unanchored
regex matches the substring `"John Smith"` inside the first token and
flags it. -/
theorem C5_hasName_counterexample :
    cleanQuery "xJohn Smith" = "xJohn Smith"
    ∧ hasName "xJohn Smith" = true
    ∧ specTwoConsecCapitalized "xJohn Smith" = false := by
  refine ⟨by decide, by decide, by decide⟩

/-- C5 (amended): `hasName` holds exactly when the text contains -
anywhere, possibly mid-token - a TitleCase word (uppercase letter followed
by lowercase letters), whitespace, and another TitleCase word; `isShort`
holds exactly when the whitespace-split token count is at most five; a
name-bearing or short query is searched verbatim, any other query is
searched by its key-term condensation of at most ten terms (falling back
to the verbatim text when the condensation is empty). -/
theorem C5_classification_and_selection (q : String) :
    (hasName q = true ↔ hasNamePred q.data)
    ∧ (isShortQuery q = true ↔ (jsSplitWs q.data).length ≤ 5)
    ∧ ((hasName q || isShortQuery q) = true → searchQueryOf q = q)
    ∧ ((hasName q || isShortQuery q) = false →
        (extractKeyTerms q ≠ "" → searchQueryOf q = extractKeyTerms q)
        ∧ (extractKeyTerms q = "" → searchQueryOf q = q))
    ∧ (∃ terms, extractKeyTerms q = String.mk (joinSpace terms)
        ∧ terms.length ≤ 10) := by
  refine ⟨hasNameScan_iff q.data, ?_, ?_, ?_, ?_⟩
  · simp [isShortQuery]
  · intro h
    simp [searchQueryOf, h]
  · intro h
    constructor
    · intro hkt
      simp [searchQueryOf, h, hkt]
    · intro hkt
      simp [searchQueryOf, h, hkt]
  · refine ⟨extractKeyTermsL q.data, rfl, ?_⟩
    unfold extractKeyTermsL
    exact List.length_take_le _ _

/-- Witness for C5: the name-bearing (and short) query of the spec example
bypasses extraction and is searched verbatim. -/
theorem C5_classification_and_selection_witness :
    searchQueryOf "Tell me about John Smith" = "Tell me about John Smith" :=
  (C5_classification_and_selection "Tell me about John Smith").2.2.1 (by decide)

end WebWhisper
